import Mathlib

/-!
Verification of the novic syntax-highlighting engine
(`src/novic/syntax/registry.py` and the `_SyntaxHighlighter` class of
`src/novic/ui/code_editor.py`) against its design specification.

The Python code is shallowly embedded: pure functions become Lean
functions, the mutable highlighter object becomes explicit state passing,
Python exceptions become `Except`, and Python dicts become association
lists or update functions.  The regex engine (`re`) is not reimplemented;
it is abstracted as a leftmost-search function together with the
documented contract of `re.finditer` (each match starts at or after the
search position, and a match's start does not exceed its end).
-/

namespace Novic

/-- A lexical token as produced by `_build_lexer._lexer` in
`registry.py`: the tuple `(kind_promoted, val, m.start(), m.end())`. -/
structure Token where
  kind : String
  lexeme : String
  start : Nat
  stop : Nat
deriving DecidableEq, Repr

/-- A regex match object as used by `_lexer`: `m.lastgroup` (the name of
the alternation group that matched, `none` if no named group matched),
`m.start()` and `m.end()`. -/
structure REMatch where
  lastgroup : Option String
  start : Nat
  stop : Nat
deriving DecidableEq, Repr

/-- An abstract compiled regex: `search text pos` returns the leftmost
match of the pattern in `text` at or after position `pos`, or `none`.
This is the interface of `re`'s scanner used by `finditer`. -/
abbrev Engine : Type := String → Nat → Option REMatch

/-- The iteration of `re.finditer`: repeatedly search from the current
position; each match is emitted and the scan resumes at its end (one past
its end for an empty match, so the scan always advances).  `fuel` bounds
the recursion; `text.length + 1` steps suffice for any engine whose
matches lie inside `text`. -/
def finditerAux (engine : Engine) (text : String) : Nat → Nat → List REMatch
  | 0, _ => []
  | fuel + 1, pos =>
    match engine text pos with
    | none => []
    | some m =>
      m :: finditerAux engine text fuel (if m.stop = m.start then m.stop + 1 else m.stop)

/-- `re.finditer(master, text)`: all matches, scanning left to right. -/
def finditer (engine : Engine) (text : String) : List REMatch :=
  finditerAux engine text (text.length + 1) 0

/-- The data captured by the closure `_lexer` built in `_build_lexer`:
the compiled master regex (`none` when the part list was empty) and the
per-base-type keyword sets `kw_sets`. -/
structure Lexer where
  master : Option Engine
  kwSets : List (String × List String)

/-- `m.group()`: the slice of `text` between `m.start()` and `m.end()`. -/
def matchGroup (text : String) (m : REMatch) : String :=
  (((text.toList).drop m.start).take (m.stop - m.start)).asString

/-- The body of `_build_lexer._lexer` (registry.py lines 51-64): if there
is no master regex return no tokens; otherwise, for every match of the
master regex, take its group name as the kind (`"text"` when absent),
promote the kind to `"kw"` when the matched literal belongs to that
kind's keyword set, and emit `(kind, lexeme, start, end)` in match
order. -/
def runLexer (lx : Lexer) (text : String) : List Token :=
  match lx.master with
  | none => []
  | some engine =>
    (finditer engine text).map fun m =>
      let kind := m.lastgroup.getD "text"
      let val := matchGroup text m
      let kindPromoted :=
        match List.lookup kind lx.kwSets with
        | some kws => if val ∈ kws then "kw" else kind
        | none => kind
      ⟨kindPromoted, val, m.start, m.stop⟩

/-! ### A concrete engine: the identifier pattern

For the concrete test of keyword promotion the language definition has a
single pattern of type `"id"` matching identifiers
(`[A-Za-z_][A-Za-z0-9_]*`).  The engine below implements leftmost maximal
matching of that pattern directly. -/

/-- A character that may start an identifier. -/
def isIdStart (c : Char) : Bool := c.isAlpha || c = '_'

/-- A character that may continue an identifier. -/
def isIdCont (c : Char) : Bool := c.isAlphanum || c = '_'

/-- Leftmost position at or after `pos` where an identifier starts. -/
def idMatchStart (chars : List Char) (pos : Nat) : Option Nat :=
  match (chars.drop pos).findIdx? isIdStart with
  | some k => some (pos + k)
  | none => none

/-- Length of the maximal run of identifier-continuation characters
beginning at index `i`. -/
def idRunLen (chars : List Char) (i : Nat) : Nat :=
  ((chars.drop i).takeWhile isIdCont).length

/-- The compiled regex `(?P<id>[A-Za-z_][A-Za-z0-9_]*)`: leftmost maximal
identifier match at or after the search position, labelled `"id"`. -/
def idEngine : Engine := fun text pos =>
  match idMatchStart text.toList pos with
  | some i => some ⟨some "id", i, i + 1 + idRunLen text.toList (i + 1)⟩
  | none => none

/-- The lexer compiled from the declarative record whose pattern list is
`[("id", identifier-pattern)]` and whose keyword map sends `"id"` to
`["if", "else"]`. -/
def idLexer : Lexer := ⟨some idEngine, [("id", ["if", "else"])]⟩

/-! ### The highlight controller (`_SyntaxHighlighter`, code_editor.py)

The style dict of a language maps a token kind to a per-kind dict that
may carry a `'color'` entry; `highlightBlock` reads it as
`self._style.get(kind, dict()).get('color')`.  A style map is embedded as
an association list from kind to the optional `'color'` field. -/

/-- The `_style` mapping: kind to the `'color'` field of its style
entry. -/
abbrev StyleMap : Type := List (String × Option String)

/-- `style.get(kind, dict()).get('color')`. -/
def styleColor (style : StyleMap) (kind : String) : Option String :=
  (List.lookup kind style).join

/-- The fields of a `LanguageDefinition` that the controller reads: the
lexer callable (which may raise, modelled by `Except`) and the style
mapping. -/
structure ControllerLang where
  lexer : String → Except Unit (List Token)
  style : StyleMap

/-- The mutable state of a `_SyntaxHighlighter` (code_editor.py lines
269-276).  `debounceTimer = none` means the `QTimer` object was never
created; `some d` means it exists and was last started with delay `d`
milliseconds. -/
structure HighlighterState where
  tokens : List Token
  style : StyleMap
  starts : List Nat
  pendingLanguage : Option ControllerLang
  debounceTimer : Option Nat
  busy : Bool

/-- The freshly constructed highlighter (`__init__`). -/
def initState : HighlighterState :=
  ⟨[], [], [], none, none, false⟩

/-- What one call to `_run_refresh` did, beside updating the state:
whether the pending language's lexer was invoked, and the delay of a
timer restart performed by the call, if any. -/
structure RefreshOutcome where
  state : HighlighterState
  invokedLexer : Bool
  retryDelay : Option Nat

/-- `_run_refresh` (code_editor.py lines 290-323) as a state transition.
If busy, restart the debounce timer with 50 ms when the timer object
exists, and return without lexing.  If no language is pending, return.
Otherwise (with `busy` set for the duration and cleared by `finally`):
fetch the document text; above 500000 characters install the empty
snapshot; otherwise lex the first 50000 characters, keep at most 4000
tokens (an exception from the lexer is caught and yields no tokens), and
install tokens, style and the cached start offsets. -/
def runRefresh (s : HighlighterState) (text : String) : RefreshOutcome :=
  if s.busy then
    if s.debounceTimer.isSome then
      ⟨{ s with debounceTimer := some 50 }, false, some 50⟩
    else
      ⟨s, false, none⟩
  else
    match s.pendingLanguage with
    | none => ⟨s, false, none⟩
    | some lang =>
      if text.length > 500000 then
        ⟨{ s with tokens := [], starts := [], style := [] }, false, none⟩
      else
        let sample := text.take 50000
        match lang.lexer sample with
        | .ok ts =>
          let tokens := ts.take 4000
          ⟨{ s with
              tokens := tokens
              style := lang.style
              starts := tokens.map (fun t => t.start) }, true, none⟩
        | .error _ =>
          ⟨{ s with tokens := [], style := lang.style, starts := [] }, true, none⟩

/-- `schedule_refresh` (code_editor.py lines 278-288): record the pending
language; run immediately when asked, otherwise create the timer object
if needed and (re)start it with the 150 ms debounce delay. -/
def scheduleRefresh (s : HighlighterState) (language : Option ControllerLang)
    (immediate : Bool) (text : String) : RefreshOutcome :=
  let s1 := { s with pendingLanguage := language }
  if immediate then
    runRefresh s1 text
  else
    ⟨{ s1 with debounceTimer := some 150 }, false, none⟩

/-! ### The block formatting query (`highlightBlock`) -/

/-- One formatting range applied by `setFormat`: the token kind, the
color of the character format, and the block-relative range
`[start, stop)` it covers. -/
structure BlockFormat where
  kind : String
  color : String
  start : Int
  stop : Int
deriving DecidableEq, Repr

/-- CPython's `bisect.bisect_left` on an ascending list: the insertion
point, i.e. the length of the prefix of elements smaller than `x`. -/
def bisectLeft (a : List Nat) (x : Nat) : Nat :=
  match a with
  | [] => 0
  | v :: rest => if v < x then bisectLeft rest x + 1 else 0

/-- The body of `highlightBlock`'s scan loop for one token with
`start < block_end` (code_editor.py lines 336-349): skip it unless it
ends after the block start; look up its color; with a truthy color,
clamp the range to the block and apply the format when non-empty. -/
def clipToken (style : StyleMap) (blockStart textLen : Nat) (t : Token) :
    Option BlockFormat :=
  if t.stop > blockStart then
    match styleColor style t.kind with
    | some color =>
      if color ≠ "" then
        if min ((t.stop : Int) - (blockStart : Int)) (textLen : Int) >
            max ((t.start : Int) - (blockStart : Int)) 0 then
          some ⟨t.kind, color, max ((t.start : Int) - (blockStart : Int)) 0,
            min ((t.stop : Int) - (blockStart : Int)) (textLen : Int)⟩
        else none
      else none
    | none => none
  else none

/-- The scan loop of `highlightBlock`: walk tokens from the bisection
index, stopping at the first token that starts at or past the block
end. -/
def scanTokens (style : StyleMap) (blockStart textLen blockEnd : Nat) :
    List Token → List BlockFormat
  | [] => []
  | t :: rest =>
    if t.start ≥ blockEnd then []
    else
      match clipToken style blockStart textLen t with
      | some f => f :: scanTokens style blockStart textLen blockEnd rest
      | none => scanTokens style blockStart textLen blockEnd rest

/-- `highlightBlock` (code_editor.py lines 325-350) as a pure function of
the snapshot (`tokens`, `style`), the block's absolute start position and
the block text length: return the formats applied, in order.  The start
index is `bisect_left(starts, block_start) - 1` clamped to zero (Nat
subtraction performs the clamp). -/
def highlightBlock (tokens : List Token) (style : StyleMap)
    (blockStart textLen : Nat) : List BlockFormat :=
  if tokens.isEmpty then []
  else
    scanTokens style blockStart textLen (blockStart + textLen)
      (tokens.drop (bisectLeft (tokens.map (fun t => t.start)) blockStart - 1))

/-- The clipped range that the specification prescribes for one token
and block `[blockStart, blockEnd)`: emitted exactly when the token's
kind has a registered color and the block-relative clipped range
`[max(start, blockStart) - blockStart, min(end, blockEnd) - blockStart)`
is non-empty. -/
def specClip (style : StyleMap) (blockStart blockEnd : Nat) (t : Token) :
    Option BlockFormat :=
  match styleColor style t.kind with
  | some color =>
    if max (t.start : Int) (blockStart : Int) - (blockStart : Int) <
        min (t.stop : Int) (blockEnd : Int) - (blockStart : Int) then
      some ⟨t.kind, color,
        max (t.start : Int) (blockStart : Int) - (blockStart : Int),
        min (t.stop : Int) (blockEnd : Int) - (blockStart : Int)⟩
    else none
  | none => none

/-! ### The registry (`SyntaxRegistry`, registry.py lines 14-31)

Python dicts keyed by lowercased strings are embedded as update
functions from keys to optional values; `d[k] = v` replaces the previous
binding for `k`. -/

/-- `str.lower()` as used for registry keys: per-character lowercasing
(adequate for the ASCII names and extensions the registry handles). -/
def strLower (s : String) : String := String.mk (s.toList.map Char.toLower)

/-- A `LanguageDefinition` (registry.py lines 7-12). -/
structure LanguageDefinition where
  name : String
  extensions : List String
  lexer : Lexer
  style : StyleMap

/-- A `SyntaxRegistry`: the dicts `_by_name` and `_by_ext`. -/
structure SyntaxRegistry where
  byName : String → Option LanguageDefinition
  byExt : String → Option LanguageDefinition

/-- `SyntaxRegistry()`: both dicts empty. -/
def emptyRegistry : SyntaxRegistry := ⟨fun _ => none, fun _ => none⟩

/-- `register` (registry.py lines 19-22): store the definition under its
lowercased name, and under the lowercased form of each of its
extensions in order. -/
def register (reg : SyntaxRegistry) (lang : LanguageDefinition) : SyntaxRegistry :=
  { byName := fun k => if k = strLower lang.name then some lang else reg.byName k
    byExt := lang.extensions.foldl
      (fun f ext => fun k => if k = strLower ext then some lang else f k)
      reg.byExt }

/-- `get` (registry.py lines 27-28): look up the lowercased name. -/
def registryGet (reg : SyntaxRegistry) (name : String) : Option LanguageDefinition :=
  reg.byName (strLower name)

/-- `get_for_extension` (registry.py lines 24-25). -/
def registryGetForExtension (reg : SyntaxRegistry) (ext : String) :
    Option LanguageDefinition :=
  reg.byExt (strLower ext)

/-! ### Loading declarative definitions (`_build_lexer`, `load_all_languages`)

`re.compile` is abstracted as a function from the prepared part list to
`Except`, failing exactly on malformed patterns; `_build_lexer` calls it
once at construction time and lets any `re.error` escape. -/

/-- One element of a record's `regexTokens` list: the `"type"` and
`"pattern"` fields, each possibly absent. -/
structure PartSpec where
  type : Option String
  pattern : Option String

/-- A parsed syntax-definition JSON record, with the fields
`load_all_languages` and `_build_lexer` read.  Absent fields are
`none`. -/
structure SyntaxJson where
  name : Option String
  extensions : Option (List String)
  regexTokens : List PartSpec
  keywordTypes : List (String × List String)
  styles : StyleMap

/-- Truthiness of an optional string (`if not ttype` / `if not name`):
`none` and the empty string are falsy. -/
def truthyStr : Option String → Bool
  | some v => v ≠ ""
  | none => false

/-- `_build_lexer` (registry.py lines 35-66), parameterised by the
behaviour `compile` of `re.compile` on the prepared named-group parts:
entries with a falsy type or pattern are skipped; with no parts the
master regex is `None`; otherwise the master regex is compiled — and a
compilation error (`re.error`) propagates out of `_build_lexer`, which
has no handler.  The keyword sets are taken from `keywordTypes`. -/
def buildLexer (compile : List (String × String) → Except Unit Engine)
    (entry : SyntaxJson) : Except Unit Lexer :=
  let parts := entry.regexTokens.filterMap fun spec =>
    match spec.type, spec.pattern with
    | some t, some p => if t ≠ "" ∧ p ≠ "" then some (t, p) else none
    | _, _ => none
  match parts with
  | [] => .ok ⟨none, entry.keywordTypes⟩
  | _ :: _ =>
    match compile parts with
    | .ok engine => .ok ⟨some engine, entry.keywordTypes⟩
    | .error e => .error e

/-- The outcome of `load_all_languages`: the registry as left behind
(the global registry keeps every mutation made before an uncaught
exception), and whether an uncaught exception escaped the call. -/
structure LoadResult where
  registry : SyntaxRegistry
  crashed : Bool

/-- The loop of `load_all_languages` (registry.py lines 73-88) over the
parse results of the JSON files.  A file whose JSON parse raised is
skipped (`except: continue`); a record with a falsy name or an empty
extension list is skipped; then `_build_lexer` runs OUTSIDE any
`try`, so a regex-compilation error aborts the whole load; the
construction and registration of the `LanguageDefinition` are inside a
`try` whose handler skips the record. -/
def loadAllLanguages (compile : List (String × String) → Except Unit Engine) :
    List (Except Unit SyntaxJson) → SyntaxRegistry → LoadResult
  | [], reg => ⟨reg, false⟩
  | f :: rest, reg =>
    match f with
    | .error _ => loadAllLanguages compile rest reg
    | .ok data =>
      match data.name with
      | none => loadAllLanguages compile rest reg
      | some n =>
        if n = "" then loadAllLanguages compile rest reg
        else
          let exts := data.extensions.getD []
          if exts = [] then loadAllLanguages compile rest reg
          else
            match buildLexer compile data with
            | .error _ => ⟨reg, true⟩
            | .ok lx =>
              loadAllLanguages compile rest
                (register reg ⟨n, exts, lx, data.styles⟩)

/-! ### Concrete instances used by the claim witnesses -/

/-- A language whose lexer returns no tokens. -/
def trivialLang : ControllerLang := ⟨fun _ => .ok [], []⟩

/-- A language whose lexer always raises. -/
def errorLang : ControllerLang := ⟨fun _ => .error (), []⟩

/-- A language whose lexer produces 10000 raw tokens on any input. -/
def manyTokensLang : ControllerLang :=
  ⟨fun _ => .ok (List.replicate 10000 ⟨"k", "v", 0, 1⟩), []⟩

/-- A fresh highlighter with a pending language (as after
`schedule_refresh(lang)` and before the timer fires). -/
def pendingState (lang : ControllerLang) : HighlighterState :=
  ⟨[], [], [], some lang, none, false⟩

/-- A synthetic 600000-character document. -/
def hugeText : String := String.mk (List.replicate 600000 'a')

/-- A highlighter that is busy and has never created its debounce
timer (every refresh so far was immediate). -/
def busyNoTimerState : HighlighterState := ⟨[], [], [], none, none, true⟩

/-- A busy highlighter whose debounce timer object exists. -/
def busyTimerState : HighlighterState := ⟨[], [], [], none, some 150, true⟩

/-- The snapshot token `("kw", "for", 10, 13)` of the block-query
example. -/
def forToken : Token := ⟨"kw", "for", 10, 13⟩

/-- A style map registering a color for the `"kw"` kind. -/
def kwStyle : StyleMap := [("kw", some "#ff0000")]

/-- A lexer with no master regex, for registry entries whose lexing
behaviour is irrelevant. -/
def stubLexer : Lexer := ⟨none, []⟩

/-- A registered language named `"Python"` with extensions in mixed
case. -/
def pyLang : LanguageDefinition := ⟨"Python", ["PY", "pyw"], stubLexer, []⟩

/-- A language whose name equals `pyLang`'s up to letter case. -/
def pyLang2 : LanguageDefinition := ⟨"PYTHON", ["py"], stubLexer, []⟩

/-- A model of `re.compile` failing exactly on the malformed pattern
`"("`. -/
def compileParens : List (String × String) → Except Unit Engine := fun parts =>
  if parts.any (fun p => p.2 = "(") then .error () else .ok (fun _ _ => none)

/-- A well-formed declarative record named `"alpha"`. -/
def goodRecordA : SyntaxJson := ⟨some "alpha", some ["al"], [⟨some "t", some "x"⟩], [], []⟩

/-- A record whose single pattern `"("` does not compile. -/
def badRecord : SyntaxJson := ⟨some "beta", some ["b"], [⟨some "t", some "("⟩], [], []⟩

/-- A well-formed declarative record named `"gamma"`, listed after the
malformed one. -/
def goodRecordC : SyntaxJson := ⟨some "gamma", some ["g"], [⟨some "t", some "y"⟩], [], []⟩

/-! ## Helper lemmas -/

/-- A successful association-list lookup exhibits a member pair. -/
theorem lookup_mem {β : Type} (a : String) (l : List (String × β)) (v : β)
    (h : List.lookup a l = some v) : (a, v) ∈ l := by
  induction l with
  | nil => cases h
  | cons p rest ih =>
    obtain ⟨k, b⟩ := p
    rw [List.lookup] at h
    cases hk : (a == k) with
    | true =>
      rw [hk] at h
      simp only [Option.some.injEq] at h
      subst h
      have hak : a = k := eq_of_beq hk
      subst hak
      exact List.mem_cons_self _ _
    | false =>
      rw [hk] at h
      exact List.mem_cons_of_mem _ (ih h)

/-- The cached-starts list of a snapshot determines the lock-step
relation between `starts` and `tokens`. -/
theorem lockstep_of_map (tokens : List Token) (starts : List Nat)
    (h : starts = tokens.map (fun t => t.start)) :
    starts.length = tokens.length ∧
    ∀ i (h1 : i < starts.length) (h2 : i < tokens.length),
      starts.get ⟨i, h1⟩ = (tokens.get ⟨i, h2⟩).start := by
  subst h
  refine ⟨List.length_map _ _, ?_⟩
  intro i h1 h2
  simp

/-! ## C3 -/

/-- C3: lexing `"if x else y"` with an identifier pattern of type `"id"`
and keyword set `{"if", "else"}` yields exactly
`[("kw","if",0,2), ("id","x",3,4), ("kw","else",5,9), ("id","y",10,11)]`:
matches whose literal text is in the keyword set are promoted to kind
`"kw"`, all other matches keep the group type as kind. -/
theorem c3_keyword_promotion :
    runLexer idLexer "if x else y" =
      [⟨"kw", "if", 0, 2⟩, ⟨"id", "x", 3, 4⟩, ⟨"kw", "else", 5, 9⟩,
        ⟨"id", "y", 10, 11⟩] := by
  decide

/-! ## C5 -/

/-- C5: whenever the document text exceeds 500000 code units, a
completed refresh skips lexing entirely and installs the empty snapshot
(no tokens, no starts, no styles), regardless of the active language. -/
theorem c5_oversize_empty_snapshot (s : HighlighterState) (lang : ControllerLang)
    (text : String) (hb : s.busy = false) (hp : s.pendingLanguage = some lang)
    (hlen : text.length > 500000) :
    (runRefresh s text).state.tokens = [] ∧
    (runRefresh s text).state.starts = [] ∧
    (runRefresh s text).state.style = [] ∧
    (runRefresh s text).invokedLexer = false := by
  simp [runRefresh, hb, hp, hlen]

/-- Witness for C5: a 600000-character document yields the empty
snapshot. -/
theorem c5_witness :
    hugeText.length > 500000 ∧
    (runRefresh (pendingState trivialLang) hugeText).state.tokens = [] ∧
    (runRefresh (pendingState trivialLang) hugeText).state.starts = [] ∧
    (runRefresh (pendingState trivialLang) hugeText).state.style = [] := by
  have hlen : hugeText.length > 500000 := by
    show (List.replicate 600000 'a').length > 500000
    rw [List.length_replicate]
    omega
  have h := c5_oversize_empty_snapshot (pendingState trivialLang) trivialLang
    hugeText rfl rfl hlen
  exact ⟨hlen, h.1, h.2.1, h.2.2.1⟩

/-! ## C6 -/

/-- C6: below the 500000 ceiling, a refresh lexes exactly the first
50000 code units and the snapshot keeps at most the first 4000 tokens of
the lexer's output; in particular 10000 raw tokens are capped to exactly
4000. -/
theorem c6_sample_and_token_cap (s : HighlighterState) (lang : ControllerLang)
    (text : String) (ts : List Token) (hb : s.busy = false)
    (hp : s.pendingLanguage = some lang) (hlen : ¬text.length > 500000)
    (hok : lang.lexer (text.take 50000) = Except.ok ts) :
    (runRefresh s text).state.tokens = ts.take 4000 ∧
    (ts.length = 10000 → (runRefresh s text).state.tokens.length = 4000) := by
  have h1 : (runRefresh s text).state.tokens = ts.take 4000 := by
    simp [runRefresh, hb, hp, hlen, hok]
  refine ⟨h1, fun h10 => ?_⟩
  rw [h1, List.length_take, h10]
  omega

/-- Witness for C6: a lexer producing 10000 raw tokens yields a snapshot
of exactly 4000 tokens. -/
theorem c6_witness :
    (runRefresh (pendingState manyTokensLang) "").state.tokens.length = 4000 := by
  have h := c6_sample_and_token_cap (pendingState manyTokensLang) manyTokensLang ""
    (List.replicate 10000 ⟨"k", "v", 0, 1⟩) rfl rfl (by decide) rfl
  exact h.2 (by rw [List.length_replicate])

/-! ## C7 -/

/-- C7: when the active language's lexer raises, the refresh treats the
invocation as producing zero tokens: the snapshot's token list (and its
starts cache) becomes empty for that cycle.  The exception is caught
inside `_run_refresh` (the transition is total), so no lexing failure
propagates to the caller. -/
theorem c7_lexer_error_empty_tokens (s : HighlighterState) (lang : ControllerLang)
    (text : String) (hb : s.busy = false) (hp : s.pendingLanguage = some lang)
    (hlen : ¬text.length > 500000)
    (herr : lang.lexer (text.take 50000) = Except.error ()) :
    (runRefresh s text).state.tokens = [] ∧
    (runRefresh s text).state.starts = [] := by
  simp [runRefresh, hb, hp, hlen, herr]

/-- Witness for C7: a raising lexer produces an empty token snapshot. -/
theorem c7_witness :
    (runRefresh (pendingState errorLang) "").state.tokens = [] ∧
    (runRefresh (pendingState errorLang) "").state.starts = [] := by
  exact c7_lexer_error_empty_tokens (pendingState errorLang) errorLang ""
    rfl rfl (by decide) rfl

/-! ## C8 -/

/-- Counterexample to C8 as stated: a refresh that begins while `busy`
is true but before the debounce timer object was ever created (only
immediate refreshes so far) returns without lexing and WITHOUT
scheduling the 50 ms retry — the request is dropped, where the claim
requires a retry to be scheduled on every busy entry. -/
theorem c8_counterexample :
    busyNoTimerState.busy = true ∧
    (runRefresh busyNoTimerState "").retryDelay = none ∧
    ¬(runRefresh busyNoTimerState "").retryDelay = some 50 ∧
    (runRefresh busyNoTimerState "").state.debounceTimer = none ∧
    (runRefresh busyNoTimerState "").invokedLexer = false := by
  refine ⟨rfl, rfl, ?_, rfl, rfl⟩
  intro h
  cases h

/-- C8 (amended): a refresh beginning while `busy` is true returns
without lexing and leaves the snapshot and pending language untouched;
it reschedules a 50 ms retry when the debounce-timer object exists, and
when the timer object was never created (only immediate refreshes so
far) the re-entrant request is dropped without a retry. -/
theorem c8_busy_guard (s : HighlighterState) (text : String) (h : s.busy = true) :
    (runRefresh s text).invokedLexer = false ∧
    (runRefresh s text).state.tokens = s.tokens ∧
    (runRefresh s text).state.starts = s.starts ∧
    (runRefresh s text).state.style = s.style ∧
    (runRefresh s text).state.pendingLanguage = s.pendingLanguage ∧
    (runRefresh s text).state.busy = true ∧
    (s.debounceTimer.isSome = true →
      (runRefresh s text).retryDelay = some 50 ∧
      (runRefresh s text).state.debounceTimer = some 50) ∧
    (s.debounceTimer = none →
      (runRefresh s text).retryDelay = none ∧
      (runRefresh s text).state.debounceTimer = none) := by
  by_cases ht : s.debounceTimer.isSome = true
  · have hne : ¬s.debounceTimer = none := Option.isSome_iff_ne_none.mp ht
    simp [runRefresh, h, ht, hne]
  · have hnone : s.debounceTimer = none := Option.not_isSome_iff_eq_none.mp ht
    simp [runRefresh, h, hnone]

/-- Witness for the amended C8: a busy refresh with an existing timer
object lexes nothing and restarts the timer with 50 ms. -/
theorem c8_witness :
    (runRefresh busyTimerState "").invokedLexer = false ∧
    (runRefresh busyTimerState "").retryDelay = some 50 ∧
    (runRefresh busyTimerState "").state.debounceTimer = some 50 := by
  obtain ⟨h1, _, _, _, _, _, h7, _⟩ := c8_busy_guard busyTimerState "" rfl
  obtain ⟨h2, h3⟩ := h7 rfl
  exact ⟨h1, h2, h3⟩

/-! ## C9 -/

/-- C9: after a completed refresh, on every path (normal, oversize,
lexer error), `starts` is the pointwise `start` projection of `tokens`
(so the lists have equal length and agree at every index), and the
tokens are sorted ascending by start whenever the lexer's output is
(which claim C2 establishes for every built lexer).  Queries observe
only this completed state: the embedding of `_run_refresh` is a single
atomic transition. -/
theorem c9_snapshot_lockstep (s : HighlighterState) (lang : ControllerLang)
    (text : String) (hb : s.busy = false) (hp : s.pendingLanguage = some lang)
    (hsorted : ∀ ts, lang.lexer (text.take 50000) = Except.ok ts →
      List.Chain' (fun a b => a.start ≤ b.start) ts) :
    (runRefresh s text).state.starts =
      (runRefresh s text).state.tokens.map (fun t => t.start) ∧
    (runRefresh s text).state.starts.length =
      (runRefresh s text).state.tokens.length ∧
    (∀ i (h1 : i < (runRefresh s text).state.starts.length)
        (h2 : i < (runRefresh s text).state.tokens.length),
      (runRefresh s text).state.starts.get ⟨i, h1⟩ =
        ((runRefresh s text).state.tokens.get ⟨i, h2⟩).start) ∧
    List.Chain' (fun a b => a.start ≤ b.start) (runRefresh s text).state.tokens := by
  have hmap : (runRefresh s text).state.starts =
      (runRefresh s text).state.tokens.map (fun t => t.start) ∧
      List.Chain' (fun a b => a.start ≤ b.start) (runRefresh s text).state.tokens := by
    by_cases hl : text.length > 500000
    · simp [runRefresh, hb, hp, hl]
    · cases hres : lang.lexer (text.take 50000) with
      | ok ts =>
        refine ⟨by simp [runRefresh, hb, hp, hl, hres], ?_⟩
        have hch : List.Chain' (fun a b : Token => a.start ≤ b.start) (ts.take 4000) :=
          (hsorted ts hres).take 4000
        simp [runRefresh, hb, hp, hl, hres, hch]
      | error e =>
        cases e
        simp [runRefresh, hb, hp, hl, hres]
  obtain ⟨h1, h4⟩ := hmap
  obtain ⟨h2, h3⟩ := lockstep_of_map _ _ h1
  exact ⟨h1, h2, h3, h4⟩

/-! ## C2 -/

/-- The scan of `finditer` only yields matches at or after the current
position, with `start ≤ end` within each match, and resumes past the end
of each match — so the match list is ascending and non-overlapping.
The hypothesis is the documented contract of `re`'s leftmost search. -/
theorem finditerAux_invariants (engine : Engine) (text : String)
    (hwf : ∀ pos m, engine text pos = some m → pos ≤ m.start ∧ m.start ≤ m.stop)
    (fuel : Nat) :
    ∀ pos,
      (∀ m ∈ finditerAux engine text fuel pos, pos ≤ m.start ∧ m.start ≤ m.stop) ∧
      List.Chain' (fun a b => a.stop ≤ b.start) (finditerAux engine text fuel pos) ∧
      List.Chain' (fun a b => a.start ≤ b.start) (finditerAux engine text fuel pos) := by
  induction fuel with
  | zero => intro pos; simp [finditerAux]
  | succ n ih =>
    intro pos
    cases hm : engine text pos with
    | none => simp [finditerAux, hm]
    | some m =>
      obtain ⟨h1, h2⟩ := hwf pos m hm
      have hpos' : m.stop ≤ (if m.stop = m.start then m.stop + 1 else m.stop) := by
        split <;> omega
      obtain ⟨ihmem, ihch, ihch2⟩ := ih (if m.stop = m.start then m.stop + 1 else m.stop)
      have hlist : finditerAux engine text (n + 1) pos =
          m :: finditerAux engine text n (if m.stop = m.start then m.stop + 1 else m.stop) := by
        rw [finditerAux, hm]
      rw [hlist]
      refine ⟨?_, ?_, ?_⟩
      · intro m' hm'
        rcases List.mem_cons.mp hm' with h | h
        · subst h; exact ⟨h1, h2⟩
        · obtain ⟨ha, hb⟩ := ihmem m' h
          exact ⟨le_trans h1 (le_trans h2 (le_trans hpos' ha)), hb⟩
      · rw [List.chain'_cons']
        refine ⟨?_, ihch⟩
        intro y hy
        exact le_trans hpos' (ihmem y (List.mem_of_mem_head? hy)).1
      · rw [List.chain'_cons']
        refine ⟨?_, ihch2⟩
        intro y hy
        exact le_trans h2 (le_trans hpos' (ihmem y (List.mem_of_mem_head? hy)).1)

/-- C2: for every compiled lexer whose master regex obeys the search
contract of `re` (a match from position `pos` satisfies
`pos ≤ start ≤ end`), the token list produced on any text satisfies
`start ≤ end` tokenwise, is sorted ascending by `start`, and consecutive
tokens do not overlap (`tokens[i].end ≤ tokens[i+1].start`). -/
theorem c2_lexer_sorted_nonoverlapping (lx : Lexer) (text : String)
    (hwf : ∀ engine, lx.master = some engine →
      ∀ pos m, engine text pos = some m → pos ≤ m.start ∧ m.start ≤ m.stop) :
    (∀ t ∈ runLexer lx text, t.start ≤ t.stop) ∧
    List.Chain' (fun a b => a.start ≤ b.start) (runLexer lx text) ∧
    List.Chain' (fun a b => a.stop ≤ b.start) (runLexer lx text) := by
  cases hma : lx.master with
  | none => simp [runLexer, hma]
  | some engine =>
    obtain ⟨hmem, hch, hch2⟩ :=
      finditerAux_invariants engine text (hwf engine hma) (text.length + 1) 0
    have hrun : runLexer lx text =
        (finditer engine text).map fun m =>
          ⟨match List.lookup (m.lastgroup.getD "text") lx.kwSets with
            | some kws => if matchGroup text m ∈ kws then "kw" else m.lastgroup.getD "text"
            | none => m.lastgroup.getD "text",
            matchGroup text m, m.start, m.stop⟩ := by
      rw [runLexer, hma]
    rw [hrun]
    refine ⟨?_, ?_, ?_⟩
    · intro t ht
      rw [List.mem_map] at ht
      obtain ⟨m, hm, rfl⟩ := ht
      exact (hmem m hm).2
    · rw [List.chain'_map]
      exact hch2
    · rw [List.chain'_map]
      exact hch

/-- The identifier engine finds its match at or after the search
position. -/
theorem idMatchStart_ge (chars : List Char) (pos i : Nat)
    (h : idMatchStart chars pos = some i) : pos ≤ i := by
  unfold idMatchStart at h
  cases hf : (chars.drop pos).findIdx? isIdStart with
  | none => rw [hf] at h; cases h
  | some k =>
    rw [hf] at h
    simp only [Option.some.injEq] at h
    omega

/-- The identifier engine satisfies the search contract of `re`. -/
theorem idEngine_wf (text : String) (pos : Nat) (m : REMatch)
    (h : idEngine text pos = some m) : pos ≤ m.start ∧ m.start ≤ m.stop := by
  unfold idEngine at h
  cases hf : idMatchStart text.toList pos with
  | none => rw [hf] at h; cases h
  | some i =>
    rw [hf] at h
    simp only [Option.some.injEq] at h
    subst h
    refine ⟨idMatchStart_ge text.toList pos i hf, ?_⟩
    show i ≤ i + 1 + idRunLen text.toList (i + 1)
    omega

/-- Witness for C2: the identifier lexer on the text of the keyword
promotion example yields a sorted, non-overlapping token list. -/
theorem c2_witness :
    (∀ t ∈ runLexer idLexer "if x else y", t.start ≤ t.stop) ∧
    List.Chain' (fun a b => a.start ≤ b.start) (runLexer idLexer "if x else y") ∧
    List.Chain' (fun a b => a.stop ≤ b.start) (runLexer idLexer "if x else y") := by
  refine c2_lexer_sorted_nonoverlapping idLexer "if x else y" ?_
  intro engine he pos m hm
  have he' : some idEngine = some engine := he
  cases he'
  exact idEngine_wf "if x else y" pos m hm

/-- Witness for C9: the lock-step invariant at a concrete refresh. -/
theorem c9_witness :
    (runRefresh (pendingState trivialLang) "").state.starts =
      (runRefresh (pendingState trivialLang) "").state.tokens.map (fun t => t.start) ∧
    List.Chain' (fun a b => a.start ≤ b.start)
      (runRefresh (pendingState trivialLang) "").state.tokens := by
  have h := c9_snapshot_lockstep (pendingState trivialLang) trivialLang "" rfl rfl
    (fun ts hts => by
      have hts' : Except.ok ([] : List Token) = Except.ok ts := hts
      cases hts'
      exact List.chain'_nil)
  exact ⟨h.1, h.2.2.2⟩

/-! ## C10 -/

/-- A key hit by none of the extension updates keeps its prior
binding. -/
theorem foldl_byExt_not_mem (lang : LanguageDefinition) (exts : List String)
    (f : String → Option LanguageDefinition) (k : String)
    (h : ∀ e ∈ exts, k ≠ strLower e) :
    exts.foldl (fun g ext => fun q => if q = strLower ext then some lang else g q) f k
      = f k := by
  induction exts generalizing f with
  | nil => rfl
  | cons e rest ih =>
    rw [List.foldl_cons]
    rw [ih _ (fun e' he' => h e' (List.mem_cons_of_mem _ he'))]
    simp [h e (List.mem_cons_self _ _)]

/-- A key equal to some extension's lowercased form is bound to the
registered language after the extension updates. -/
theorem foldl_byExt_mem (lang : LanguageDefinition) (exts : List String)
    (f : String → Option LanguageDefinition) (k : String)
    (h : ∃ e ∈ exts, k = strLower e) :
    exts.foldl (fun g ext => fun q => if q = strLower ext then some lang else g q) f k
      = some lang := by
  induction exts generalizing f with
  | nil => simp at h
  | cons e rest ih =>
    rw [List.foldl_cons]
    by_cases hr : ∃ e' ∈ rest, k = strLower e'
    · exact ih _ hr
    · push_neg at hr
      rw [foldl_byExt_not_mem lang rest _ k hr]
      obtain ⟨e0, he0, hk⟩ := h
      rcases List.mem_cons.mp he0 with rfl | hmem
      · simp [hk]
      · exact absurd hk (hr e0 hmem)

/-- C10: registry lookups are case-insensitive — after registering a
definition, `get` returns it for every name equal to the definition's
name up to letter case, `get_for_extension` returns it for every string
equal to one of its extensions up to letter case, and a later `register`
under a name equal up to case replaces the entry. -/
theorem c10_registry_case_insensitive (reg : SyntaxRegistry)
    (lang : LanguageDefinition) (s : String) :
    (strLower s = strLower lang.name → registryGet (register reg lang) s = some lang) ∧
    (∀ e ∈ lang.extensions, strLower s = strLower e →
      registryGetForExtension (register reg lang) s = some lang) ∧
    (∀ lang2 : LanguageDefinition, strLower lang2.name = strLower lang.name →
      strLower s = strLower lang.name →
      registryGet (register (register reg lang) lang2) s = some lang2) := by
  refine ⟨?_, ?_, ?_⟩
  · intro h
    simp [registryGet, register, h]
  · intro e he h
    unfold registryGetForExtension register
    exact foldl_byExt_mem lang _ _ _ ⟨e, he, h⟩
  · intro lang2 hname h
    have h2 : strLower s = strLower lang2.name := h.trans hname.symm
    simp [registryGet, register, h2]

/-- Witness for C10: `"Python"` with extensions `["PY", "pyw"]` is found
under `"PYTHON"` and `"Py"`, and re-registering under `"PYTHON"`
replaces the entry. -/
theorem c10_witness :
    registryGet (register emptyRegistry pyLang) "PYTHON" = some pyLang ∧
    registryGetForExtension (register emptyRegistry pyLang) "Py" = some pyLang ∧
    registryGet (register (register emptyRegistry pyLang) pyLang2) "python"
      = some pyLang2 := by
  obtain ⟨h1, _, _⟩ := c10_registry_case_insensitive emptyRegistry pyLang "PYTHON"
  obtain ⟨_, h2, _⟩ := c10_registry_case_insensitive emptyRegistry pyLang "Py"
  obtain ⟨_, _, h3⟩ := c10_registry_case_insensitive emptyRegistry pyLang "python"
  refine ⟨h1 (by decide), h2 "PY" ?_ (by decide), h3 pyLang2 (by decide) (by decide)⟩
  show "PY" ∈ ["PY", "pyw"]
  simp

/-! ## C1 -/

/-- `specClip` at a kind with a registered color, the match reduced. -/
theorem specClip_eq_some_color {style : StyleMap} {blockStart blockEnd : Nat}
    {t : Token} {color : String} (hc : styleColor style t.kind = some color) :
    specClip style blockStart blockEnd t =
      if max (t.start : Int) (blockStart : Int) - (blockStart : Int) <
          min (t.stop : Int) (blockEnd : Int) - (blockStart : Int) then
        some ⟨t.kind, color,
          max (t.start : Int) (blockStart : Int) - (blockStart : Int),
          min (t.stop : Int) (blockEnd : Int) - (blockStart : Int)⟩
      else none := by
  unfold specClip
  rw [hc]

/-- `specClip` at a kind with no registered color. -/
theorem specClip_eq_none_color {style : StyleMap} {blockStart blockEnd : Nat}
    {t : Token} (hc : styleColor style t.kind = none) :
    specClip style blockStart blockEnd t = none := by
  unfold specClip
  rw [hc]

/-- `clipToken` at a kind with a registered color, the match reduced. -/
theorem clipToken_eq_some_color {style : StyleMap} {blockStart textLen : Nat}
    {t : Token} {color : String} (hc : styleColor style t.kind = some color) :
    clipToken style blockStart textLen t =
      if t.stop > blockStart then
        if color ≠ "" then
          if min ((t.stop : Int) - (blockStart : Int)) (textLen : Int) >
              max ((t.start : Int) - (blockStart : Int)) 0 then
            some ⟨t.kind, color, max ((t.start : Int) - (blockStart : Int)) 0,
              min ((t.stop : Int) - (blockStart : Int)) (textLen : Int)⟩
          else none
        else none
      else none := by
  unfold clipToken
  rw [hc]

/-- `clipToken` at a kind with no registered color. -/
theorem clipToken_eq_none_color {style : StyleMap} {blockStart textLen : Nat}
    {t : Token} (hc : styleColor style t.kind = none) :
    clipToken style blockStart textLen t = none := by
  unfold clipToken
  rw [hc]
  simp

/-- A token ending at or before the block start has an empty clipped
range. -/
theorem specClip_eq_none_of_stop_le {style : StyleMap} {blockStart blockEnd : Nat}
    {t : Token} (h : t.stop ≤ blockStart) :
    specClip style blockStart blockEnd t = none := by
  cases hc : styleColor style t.kind with
  | none => exact specClip_eq_none_color hc
  | some color =>
    rw [specClip_eq_some_color hc]
    exact if_neg (by omega)

/-- A token starting at or past the block end has an empty clipped
range. -/
theorem specClip_eq_none_of_le_start {style : StyleMap} {blockStart blockEnd : Nat}
    {t : Token} (h : blockEnd ≤ t.start) :
    specClip style blockStart blockEnd t = none := by
  cases hc : styleColor style t.kind with
  | none => exact specClip_eq_none_color hc
  | some color =>
    rw [specClip_eq_some_color hc]
    exact if_neg (by omega)

/-- For a token that the scan loop reaches (its start is before the
block end), the loop body computes exactly the specified clip, provided
every registered color is a non-empty string. -/
theorem clipToken_eq_specClip {style : StyleMap} {blockStart textLen : Nat}
    {t : Token} (hstyle : ∀ p ∈ style, ∀ c, p.2 = some c → c ≠ "") :
    clipToken style blockStart textLen t =
      specClip style blockStart (blockStart + textLen) t := by
  cases hc : styleColor style t.kind with
  | none => rw [clipToken_eq_none_color hc, specClip_eq_none_color hc]
  | some color =>
    have hlk : List.lookup t.kind style = some (some color) := by
      unfold styleColor at hc
      exact Option.join_eq_some.mp hc
    have hcne : color ≠ "" := hstyle _ (lookup_mem t.kind style (some color) hlk) _ rfl
    have hA : max ((t.start : Int) - (blockStart : Int)) 0 =
        max (t.start : Int) (blockStart : Int) - (blockStart : Int) := by omega
    have hB : min ((t.stop : Int) - (blockStart : Int)) (textLen : Int) =
        min (t.stop : Int) ((blockStart + textLen : Nat) : Int) - (blockStart : Int) := by
      omega
    rw [clipToken_eq_some_color hc, specClip_eq_some_color hc, if_pos hcne, hA, hB]
    by_cases hcond : max (t.start : Int) (blockStart : Int) - (blockStart : Int) <
        min (t.stop : Int) ((blockStart + textLen : Nat) : Int) - (blockStart : Int)
    · have hstop : t.stop > blockStart := by omega
      rw [if_pos hstop]
    · rw [if_neg hcond]
      simp

/-- In a non-overlapping ascending token list, the head's end bounds
every later token's start. -/
theorem stop_le_start_of_mem {t : Token} {rest : List Token}
    (hse : ∀ u ∈ rest, u.start ≤ u.stop)
    (hch : List.Chain' (fun a b => a.stop ≤ b.start) (t :: rest)) :
    ∀ u ∈ rest, t.stop ≤ u.start := by
  induction rest generalizing t with
  | nil => intro u hu; cases hu
  | cons v vs ih =>
    intro u hu
    have h1 : t.stop ≤ v.start := (List.chain'_cons.mp hch).1
    rcases List.mem_cons.mp hu with rfl | hmem
    · exact h1
    · have h2 := ih (fun w hw => hse w (List.mem_cons_of_mem _ hw))
        (List.chain'_cons.mp hch).2 u hmem
      have h3 : v.start ≤ v.stop := hse v (List.mem_cons_self _ _)
      omega

/-- The forward scan of `highlightBlock`, run on a sorted
non-overlapping suffix, emits exactly the specified clips of that
suffix: the break at the first token starting at or past the block end
drops only tokens whose clip is empty. -/
theorem scanTokens_eq_filterMap (style : StyleMap) (blockStart textLen : Nat)
    (hstyle : ∀ p ∈ style, ∀ c, p.2 = some c → c ≠ "") (l : List Token)
    (hse : ∀ u ∈ l, u.start ≤ u.stop)
    (hch : List.Chain' (fun a b => a.stop ≤ b.start) l) :
    scanTokens style blockStart textLen (blockStart + textLen) l =
      l.filterMap (specClip style blockStart (blockStart + textLen)) := by
  induction l with
  | nil => rfl
  | cons t rest ih =>
    rw [scanTokens]
    by_cases hge : t.start ≥ blockStart + textLen
    · rw [if_pos hge]
      symm
      rw [List.filterMap_eq_nil_iff]
      intro u hu
      rcases List.mem_cons.mp hu with rfl | hmem
      · exact specClip_eq_none_of_le_start hge
      · have h1 := stop_le_start_of_mem
          (fun w hw => hse w (List.mem_cons_of_mem _ hw)) hch u hmem
        have h2 : t.start ≤ t.stop := hse t (List.mem_cons_self _ _)
        exact specClip_eq_none_of_le_start (by omega)
    · rw [if_neg hge]
      rw [clipToken_eq_specClip hstyle]
      have ih' := ih (fun w hw => hse w (List.mem_cons_of_mem _ hw)) hch.tail
      cases hc : specClip style blockStart (blockStart + textLen) t with
      | none => simp [hc, ih', List.filterMap_cons_none hc]
      | some f => simp [hc, ih', List.filterMap_cons_some hc]

/-- C1: for every snapshot whose tokens satisfy the lexer invariants
(start ≤ end, sorted, non-overlapping — claim C2) and whose registered
colors are non-empty strings, the block query returns, in token order,
exactly the block-relative clipped ranges of the tokens overlapping
`[blockStart, blockStart + textLen)`, emitting nothing for a token whose
clipped range is empty or whose kind has no registered color. -/
theorem c1_block_query (tokens : List Token) (style : StyleMap)
    (blockStart textLen : Nat)
    (hse : ∀ t ∈ tokens, t.start ≤ t.stop)
    (hch : List.Chain' (fun a b => a.stop ≤ b.start) tokens)
    (hstyle : ∀ p ∈ style, ∀ c, p.2 = some c → c ≠ "") :
    highlightBlock tokens style blockStart textLen =
      tokens.filterMap (specClip style blockStart (blockStart + textLen)) := by
  induction tokens with
  | nil => rfl
  | cons t rest ih =>
    rw [highlightBlock]
    simp only [List.isEmpty_cons, Bool.false_eq_true, if_false]
    by_cases h1 : t.start < blockStart
    · cases hbl : bisectLeft (List.map (fun x => x.start) rest) blockStart with
      | zero =>
        have hb1 : bisectLeft (List.map (fun x => x.start) (t :: rest)) blockStart = 1 := by
          simp [bisectLeft, h1, hbl]
        rw [hb1]
        simp only [Nat.sub_self, List.drop_zero]
        exact scanTokens_eq_filterMap style blockStart textLen hstyle _ hse hch
      | succ k =>
        cases rest with
        | nil => simp [bisectLeft] at hbl
        | cons u rest' =>
          have hu : u.start < blockStart := by
            by_contra hX
            simp [bisectLeft, hX] at hbl
          have hts : t.stop ≤ u.start := (List.chain'_cons.mp hch).1
          have hclip : specClip style blockStart (blockStart + textLen) t = none :=
            specClip_eq_none_of_stop_le (by omega)
          have hbl2 : bisectLeft (List.map (fun x => x.start) rest') blockStart = k := by
            simp [bisectLeft, hu] at hbl
            omega
          have hbig : bisectLeft (List.map (fun x => x.start) (t :: u :: rest'))
              blockStart = k + 2 := by
            simp [bisectLeft, h1, hu, hbl2]
          rw [hbig]
          have hdrop : (t :: u :: rest').drop (k + 2 - 1) = (u :: rest').drop k := by
            simp
          rw [hdrop]
          have hrest := ih (fun w hw => hse w (List.mem_cons_of_mem _ hw))
            (List.chain'_cons.mp hch).2
          rw [highlightBlock] at hrest
          simp only [List.isEmpty_cons, Bool.false_eq_true, if_false] at hrest
          have hidx : bisectLeft (List.map (fun x => x.start) (u :: rest'))
              blockStart - 1 = k := by
            simp [bisectLeft, hu, hbl2]
          rw [hidx] at hrest
          rw [hrest, List.filterMap_cons_none hclip]
    · have hb0 : bisectLeft (List.map (fun x => x.start) (t :: rest)) blockStart = 0 := by
        simp [bisectLeft, h1]
      rw [hb0]
      simp only [Nat.zero_sub, List.drop_zero]
      exact scanTokens_eq_filterMap style blockStart textLen hstyle _ hse hch

/-- Witness for C1: the snapshot with token `("kw","for",10,13)` and a
styled `"kw"` kind yields `("kw",10,13)` for block `[0,20)` and
`("kw",0,1)` for block `[12,20)`. -/
theorem c1_witness :
    highlightBlock [forToken] kwStyle 0 20 = [⟨"kw", "#ff0000", 10, 13⟩] ∧
    highlightBlock [forToken] kwStyle 12 8 = [⟨"kw", "#ff0000", 0, 1⟩] := by
  have hse : ∀ t ∈ [forToken], t.start ≤ t.stop := by decide
  have hch : List.Chain' (fun a b : Token => a.stop ≤ b.start) [forToken] :=
    List.chain'_singleton _
  have hstyle : ∀ p ∈ kwStyle, ∀ c, p.2 = some c → c ≠ "" := by
    intro p hp c hc
    have hp' : p = ("kw", some "#ff0000") := by
      simpa [kwStyle] using hp
    subst hp'
    simp only at hc
    cases hc
    decide
  constructor
  · rw [c1_block_query [forToken] kwStyle 0 20 hse hch hstyle]
    decide
  · rw [c1_block_query [forToken] kwStyle 12 8 hse hch hstyle]
    decide

/-! ## C4 -/

/-- C4 (behaviour at the failing input): loading
`[alpha, beta, gamma]` where `beta` holds the malformed pattern `"("`
CRASHES `load_all_languages` — `_build_lexer`'s `re.compile` call sits
outside the `try` (registry.py line 82), so the `re.error` propagates:
`alpha`, registered before the crash, is still present, but `gamma` is
never loaded.  The claim (and the evident intent of the surrounding
`try/except` blocks) requires the malformed definition to be skipped
with loading continuing. -/
theorem c4_malformed_regex_crashes_load :
    (loadAllLanguages compileParens
      [Except.ok goodRecordA, Except.ok badRecord, Except.ok goodRecordC]
      emptyRegistry).crashed = true ∧
    (registryGet (loadAllLanguages compileParens
      [Except.ok goodRecordA, Except.ok badRecord, Except.ok goodRecordC]
      emptyRegistry).registry "alpha").isSome = true ∧
    registryGet (loadAllLanguages compileParens
      [Except.ok goodRecordA, Except.ok badRecord, Except.ok goodRecordC]
      emptyRegistry).registry "gamma" = none := by
  refine ⟨rfl, rfl, rfl⟩

end Novic
